import Mathlib

/-!
# NoiseGuard core: shallow embedding and verification

This file embeds the two components of the NoiseGuard native core in Lean 4
and proves properties of them:

* `ainoiceguard.RingBuffer` — the lock-free SPSC ring buffer of
  `src/native/src/ringbuffer.h`, modelled with unbounded logical indices
  (the `size_t` indices of the source, which grow monotonically) and a
  functional sample store indexed through the bit mask, exactly as the
  source masks positions with `& mask_`.
* `noiseguard.RNNoiseWrapper` — the frame pipeline of
  `src/native/src/rnnoise_wrapper.cpp`.  Samples and settings are modelled
  as exact rationals; the external denoising engine (`rnnoise_process_frame`)
  is an oracle parameter returning the processed frame and a VAD
  probability, and the square root used by `computeRms` is likewise an
  oracle parameter `sqrtFn` (its output is only ever stored in metrics,
  never branched on).

Atomics are modelled as plain state: the claims under study are all
single-threaded (one processing thread mutates the state; the memory-order
annotations of the source only matter for cross-thread visibility, out of
scope here).
-/

namespace noiseguard

/-- `kRNNoiseFrameSize = 480` : RNNoise frame size (10 ms at 48 kHz). -/
def kRNNoiseFrameSize : Nat := 480

/-- A frame of `kRNNoiseFrameSize` samples, in place (mutation is modelled
by returning the new frame). -/
abbrev Frame := Fin kRNNoiseFrameSize → ℚ

/-- `kGainSmoothCoeff = 0.08f` : gain smoothing coefficient. -/
def kGainSmoothCoeff : ℚ := 8/100

/-- `kMinGateGain = 0.001f` : minimum gate gain. -/
def kMinGateGain : ℚ := 1/1000

/-- `kComfortNoiseLevel = 0.001f` : comfort noise RMS level. -/
def kComfortNoiseLevel : ℚ := 1/1000

/-- `kVadHysteresis = 0.1f` : hysteresis band width for VAD gating. -/
def kVadHysteresis : ℚ := 1/10

/-- The metrics block of `AudioMetrics` (each field is an independent
atomic in the source; modelled as plain fields). -/
structure AudioMetrics where
  inputRms : ℚ
  outputRms : ℚ
  vadProbability : ℚ
  currentGain : ℚ
  framesProcessed : Nat
  deriving DecidableEq

/-- State of `RNNoiseWrapper`.  `initialized` stands for `state_ != nullptr`
(the opaque `DenoiseState` itself lives in the engine oracle). -/
structure RNNoiseWrapper where
  initialized : Bool
  suppressionLevel : ℚ
  vadThreshold : ℚ
  comfortNoiseEnabled : Bool
  smoothGain : ℚ
  noiseState : Nat
  metrics : AudioMetrics
  deriving DecidableEq

/-- The default-constructed wrapper (member initializers of
`rnnoise_wrapper.h`): suppression 1.0, threshold 0.5, comfort noise on,
smooth gain 1.0, noise state `0x12345678`. -/
def initialWrapper : RNNoiseWrapper :=
  { initialized := false
    suppressionLevel := 1
    vadThreshold := 1/2
    comfortNoiseEnabled := true
    smoothGain := 1
    noiseState := 0x12345678
    metrics := ⟨0, 0, 0, 1, 0⟩ }

/-- `RNNoiseWrapper::init`.  `createOk` is the oracle outcome of
`rnnoise_create(nullptr)`; on either outcome the state fields and metrics
are reset exactly as in the source, and the returned `Bool` is
`state_ != nullptr`. -/
def init (st : RNNoiseWrapper) (createOk : Bool) : RNNoiseWrapper × Bool :=
  ({ st with
      initialized := createOk
      smoothGain := 1
      noiseState := 0x12345678
      metrics := ⟨0, 0, 0, 1, 0⟩ }, createOk)

/-- `RNNoiseWrapper::destroy` : releases the engine handle. -/
def destroy (st : RNNoiseWrapper) : RNNoiseWrapper :=
  { st with initialized := false }

/-- `RNNoiseWrapper::setSuppressionLevel` : `std::clamp(level, 0, 1)`. -/
def setSuppressionLevel (st : RNNoiseWrapper) (level : ℚ) : RNNoiseWrapper :=
  { st with suppressionLevel := min (max level 0) 1 }

/-- `RNNoiseWrapper::setVadThreshold` : `std::clamp(threshold, 0, 1)`. -/
def setVadThreshold (st : RNNoiseWrapper) (threshold : ℚ) : RNNoiseWrapper :=
  { st with vadThreshold := min (max threshold 0) 1 }

/-- `RNNoiseWrapper::setComfortNoise`. -/
def setComfortNoise (st : RNNoiseWrapper) (enabled : Bool) : RNNoiseWrapper :=
  { st with comfortNoiseEnabled := enabled }

/-- `RNNoiseWrapper::computeRms` : `sqrt(sum of squares / len)` on the
frame.  `sqrtFn` is the square-root oracle (the value is only stored in
metrics, never branched on, so no property of `sqrtFn` is ever needed). -/
def computeRms (sqrtFn : ℚ → ℚ) (buf : Frame) : ℚ :=
  sqrtFn ((∑ i, buf i * buf i) / (kRNNoiseFrameSize : ℚ))

/-- The xorshift32 update of `comfortNoiseSample`:
`x ^= x<<13; x ^= x>>17; x ^= x<<5`, each step on a 32-bit unsigned word. -/
def xorshift32 (s : Nat) : Nat :=
  let s1 := (s ^^^ (s <<< 13)) % 2^32
  let s2 := s1 ^^^ (s1 >>> 17)
  (s2 ^^^ (s2 <<< 5)) % 2^32

/-- Reinterpret a 32-bit unsigned word as a signed two's-complement
`int32_t` (the `static_cast<int32_t>` of the source). -/
def toInt32 (x : Nat) : Int :=
  if x < 2^31 then (x : Int) else (x : Int) - 2^32

/-- `RNNoiseWrapper::comfortNoiseSample` : advance the xorshift32 state,
map the new state to `[-1, 1)` by dividing its signed reinterpretation by
`2147483648.0`, and scale by `kComfortNoiseLevel`.  Returns the new
generator state together with the sample. -/
def comfortNoiseSample (s : Nat) : Nat × ℚ :=
  let s3 := xorshift32 s
  (s3, ((toInt32 s3 : ℚ) / 2147483648) * kComfortNoiseLevel)

/-- The comfort-noise injection loop
`for i in [0, n): frame[i] += comfortNoiseSample() * scale`,
iterated in ascending index order, threading the generator state. -/
def comfortLoop (scale : ℚ) (s : Nat) (f : Frame) : Nat → Nat × Frame
  | 0 => (s, f)
  | n + 1 =>
    let p := comfortLoop scale s f n
    if h : n < kRNNoiseFrameSize then
      let q := comfortNoiseSample p.1
      (q.1, Function.update p.2 ⟨n, h⟩ (p.2 ⟨n, h⟩ + q.2 * scale))
    else p

/-- Step 4 of `processFrame`: scale the frame into RNNoise's int16 range
(`frame[i] *= 32767.0f`). -/
def scaleUp (f : Frame) : Frame := fun i => f i * 32767

/-- Convert back to `[-1, 1]` (`frame[i] *= 1.0f/32767.0f`). -/
def scaleDown (f : Frame) : Frame := fun i => f i * (1 / 32767)

/-- Step 4 of `processFrame`: wet/dry blend.  Executed only when
`level < 1.0`; `frame[i] = frame[i]*level + original[i]*(1-level)`. -/
def blend (level : ℚ) (original processed : Frame) : Frame :=
  if level < 1 then
    fun i => processed i * level + original i * (1 - level)
  else processed

/-- Step 5 of `processFrame`: target gate gain from the VAD probability
and the configured threshold, with hysteresis — the three branches of the
source, in source order. -/
def targetGain (vad vadThresh : ℚ) : ℚ :=
  if vad ≥ vadThresh then 1
  else if vad < vadThresh - kVadHysteresis then
    let ratio := vad / max (vadThresh - kVadHysteresis) (1/100)
    max (kMinGateGain + ratio * (1 - kMinGateGain)) kMinGateGain
  else
    let ratio := (vad - (vadThresh - kVadHysteresis)) / kVadHysteresis
    kMinGateGain + ratio * (1 - kMinGateGain)

/-- Step 6 of `processFrame`: exponential smoothing toward the target,
then `std::clamp(smoothGain_, kMinGateGain, 1.0f)`. -/
def smoothStep (g target : ℚ) : ℚ :=
  min (max (g + kGainSmoothCoeff * (target - g)) kMinGateGain) 1

/-- Apply the gate gain to the frame (`frame[i] *= smoothGain_`). -/
def applyGain (g : ℚ) (f : Frame) : Frame := fun i => f i * g

/-- Step 7 of `processFrame`: comfort noise, injected only when enabled
and the smoothed gain is below `0.1`, with scale `(0.1 − gain) / 0.1`. -/
def comfortPhase (enabled : Bool) (g : ℚ) (s : Nat) (f : Frame) :
    Nat × Frame :=
  if enabled = true ∧ g < 1/10 then
    comfortLoop ((1/10 - g) / (1/10)) s f kRNNoiseFrameSize
  else (s, f)

/-- Result of `processFrame`: the new wrapper state, the (in-place
mutated) frame, and the returned VAD probability. -/
structure ProcessResult where
  state : RNNoiseWrapper
  frame : Frame
  ret : ℚ

/-- `RNNoiseWrapper::processFrame`, faithful to the source:

* `state_ == nullptr` → return `0.0`, nothing touched;
* `suppressionLevel_ ≤ 0` → passthrough fast path: metrics updated with
  the frame's RMS on both sides, VAD 0, gain 1, counter incremented;
* otherwise the full path: measure input RMS, save the original, scale up,
  run the engine (oracle), scale down, wet/dry blend, compute the target
  gate gain, smooth and clamp, apply the gain, optionally inject comfort
  noise, measure output RMS, update metrics, return the VAD probability.

The sequential metric stores of the source are collected into one final
metrics record (equivalent for a single-threaded observer). -/
def processFrame (sqrtFn : ℚ → ℚ) (engine : Frame → Frame × ℚ)
    (st : RNNoiseWrapper) (frame : Frame) : ProcessResult :=
  if st.initialized = false then ⟨st, frame, 0⟩
  else if st.suppressionLevel ≤ 0 then
    let rms := computeRms sqrtFn frame
    ⟨{ st with metrics :=
        ⟨rms, rms, 0, 1, st.metrics.framesProcessed + 1⟩ }, frame, 0⟩
  else
    let inputRms := computeRms sqrtFn frame
    let ep := engine (scaleUp frame)
    let vad := ep.2
    let blended := blend st.suppressionLevel frame (scaleDown ep.1)
    let g := smoothStep st.smoothGain (targetGain vad st.vadThreshold)
    let gated := applyGain g blended
    let cp := comfortPhase st.comfortNoiseEnabled g st.noiseState gated
    let outputRms := computeRms sqrtFn cp.2
    ⟨{ st with
        smoothGain := g
        noiseState := cp.1
        metrics :=
          ⟨inputRms, outputRms, vad, g, st.metrics.framesProcessed + 1⟩ },
      cp.2, vad⟩

/-- One call on the wrapper, for stating whole-history invariants:
initialization (with the engine-creation outcome), a processed frame
(with its oracles), the three setters, and `destroy`. -/
inductive WrapperOp where
  | init (createOk : Bool)
  | process (sqrtFn : ℚ → ℚ) (engine : Frame → Frame × ℚ) (frame : Frame)
  | setLevel (v : ℚ)
  | setThreshold (v : ℚ)
  | setComfort (b : Bool)
  | destroy

/-- Apply one call to the wrapper state. -/
def stepOp (st : RNNoiseWrapper) : WrapperOp → RNNoiseWrapper
  | .init ok => (init st ok).1
  | .process sq en f => (processFrame sq en st f).state
  | .setLevel v => setSuppressionLevel st v
  | .setThreshold v => setVadThreshold st v
  | .setComfort b => setComfortNoise st b
  | .destroy => destroy st

/-- The wrapper state after a sequence of calls on a default-constructed
wrapper. -/
def runOps (ops : List WrapperOp) : RNNoiseWrapper :=
  ops.foldl stepOp initialWrapper

end noiseguard

namespace ainoiceguard

/-- `x |= x >> k` : one smearing step of `nextPowerOf2`. -/
def orShift (m k : Nat) : Nat := m ||| (m >>> k)

/-- `nextPowerOf2` of `ringbuffer.h` : for `n = 0` return 1, otherwise
decrement, OR in the right-shifts by 1, 2, 4, 8, 16, 32 (the loop
`for i = 1; i < 64; i *= 2`), and add 1 back. -/
def nextPowerOf2 (n : Nat) : Nat :=
  if n = 0 then 1
  else
    orShift (orShift (orShift (orShift (orShift (orShift (n - 1)
      1) 2) 4) 8) 16) 32 + 1

/-- State of `RingBuffer`.  `capacity` is the rounded capacity; the mask
is `capacity - 1` (a `const` derived field in the source, inlined here);
`buffer` is the backing store, indexed through the mask, holding arbitrary
values at never-written positions (`new float[capacity_]` does not
initialize); `readIdx`/`writeIdx` are the logical (monotonically
increasing) `size_t` indices. -/
structure RingBuffer where
  capacity : Nat
  buffer : Nat → ℚ
  readIdx : Nat
  writeIdx : Nat

/-- The constructor `RingBuffer(capacity)` : capacity rounded up to the
next power of two, indices zero.  `initStore` stands for the arbitrary
contents of the uninitialized allocation. -/
def mkRingBuffer (requested : Nat) (initStore : Nat → ℚ) : RingBuffer :=
  { capacity := nextPowerOf2 requested
    buffer := initStore
    readIdx := 0
    writeIdx := 0 }

/-- `RingBuffer::available_read` : `w - r` when `w ≥ r`, otherwise
`capacity - (r - w)`. -/
def RingBuffer.available_read (rb : RingBuffer) : Nat :=
  if rb.writeIdx ≥ rb.readIdx then rb.writeIdx - rb.readIdx
  else rb.capacity - (rb.readIdx - rb.writeIdx)

/-- `RingBuffer::available_write` : `capacity - available_read() - 1`. -/
def RingBuffer.available_write (rb : RingBuffer) : Nat :=
  rb.capacity - rb.available_read - 1

/-- The copy loop of `write` : `buffer_[(w + i) & mask_] = src[i]` for
`i = 0, …, count-1`, in ascending order (a later store wins at a
colliding masked position, as in the source). -/
def writeLoop (src : Nat → ℚ) (w mask : Nat) (buf : Nat → ℚ) :
    Nat → (Nat → ℚ)
  | 0 => buf
  | i + 1 => Function.update (writeLoop src w mask buf i)
      ((w + i) &&& mask) (src i)

/-- `RingBuffer::write` : clamp `count` to the free space
`capacity - used - 1`, copy the samples at masked positions, advance the
write index.  Returns the new state and the count actually written. -/
def RingBuffer.write (rb : RingBuffer) (src : Nat → ℚ) (count : Nat) :
    RingBuffer × Nat :=
  let w := rb.writeIdx
  let r := rb.readIdx
  let used := if w ≥ r then w - r else rb.capacity - (r - w)
  let free := rb.capacity - used - 1
  let count := if count > free then free else count
  if count = 0 then (rb, 0)
  else
    ({ rb with
        buffer := writeLoop src w (rb.capacity - 1) rb.buffer count
        writeIdx := w + count }, count)

/-- `RingBuffer::read` : clamp `count` to the used space, read the
samples at masked positions in ascending order into `dst` (returned here
as the list of samples read, in order), advance the read index. -/
def RingBuffer.read (rb : RingBuffer) (count : Nat) :
    RingBuffer × List ℚ :=
  let r := rb.readIdx
  let w := rb.writeIdx
  let used := if w ≥ r then w - r else rb.capacity - (r - w)
  let count := if count > used then used else count
  if count = 0 then (rb, [])
  else
    ({ rb with readIdx := r + count },
      (List.range count).map fun i => rb.buffer ((r + i) &&& (rb.capacity - 1)))

/-- One call on a ring buffer: a producer write (source samples and
requested count) or a consumer read (requested count). -/
inductive RBOp where
  | write (src : Nat → ℚ) (count : Nat)
  | read (count : Nat)

/-- Apply one call to the ring-buffer state (outputs discarded). -/
def stepRB (rb : RingBuffer) : RBOp → RingBuffer
  | .write src count => (rb.write src count).1
  | .read count => (rb.read count).1

/-- State after a call sequence on a freshly constructed buffer. -/
def runRB (requested : Nat) (initStore : Nat → ℚ) (ops : List RBOp) :
    RingBuffer :=
  ops.foldl stepRB (mkRingBuffer requested initStore)

/-- Write one whole list (the source passes a pointer and a count;
`l.getD i 0` is the sample at offset `i`). -/
def writeList (rb : RingBuffer) (l : List ℚ) : RingBuffer × Nat :=
  rb.write (fun i => l.getD i 0) l.length

/-- Write a sequence of chunks, one `write` call per chunk. -/
def writeAll (rb : RingBuffer) : List (List ℚ) → RingBuffer
  | [] => rb
  | c :: cs => writeAll (writeList rb c).1 cs

/-- Every `write` call in the chunk sequence reports the full chunk
length. -/
def writesAllFull (rb : RingBuffer) : List (List ℚ) → Prop
  | [] => True
  | c :: cs => (writeList rb c).2 = c.length ∧
      writesAllFull (writeList rb c).1 cs

end ainoiceguard

/-! ## Theorems -/

namespace noiseguard

/-- The target-gain formula exactly as the specification words it:
`1.0` when `vad ≥ T`; `max(G_min + (vad / max(T − H, 0.01))·(1 − G_min),
G_min)` when `vad < T − H`; and `G_min + ((vad − (T − H)) / H)·(1 − G_min)`
with no additional floor clamp when `T − H ≤ vad < T` (here `H = 0.1`,
`G_min = 0.001`).  Stated from the spec's words, to be compared with
`targetGain`, which is translated from the source. -/
def targetGainSpec (vad T : ℚ) : ℚ :=
  if vad ≥ T then 1
  else if vad < T - 1/10 then
    max (1/1000 + (vad / max (T - 1/10) (1/100)) * (1 - 1/1000)) (1/1000)
  else 1/1000 + ((vad - (T - 1/10)) / (1/10)) * (1 - 1/1000)

end noiseguard

/-- **C1.**  For every initialized wrapper with suppression level > 0, the
target gate gain computed by `processFrame` from the VAD probability and
the threshold is exactly the spec's three-branch formula: the source's
`targetGain` agrees with `targetGainSpec` everywhere, `processFrame`
returns the engine's VAD probability, and the smoothed gain after the call
is the smoothing-and-clamp step applied to that spec formula evaluated at
the returned VAD probability and the current threshold. -/
theorem C1_target_gain_formula (sqrtFn : ℚ → ℚ)
    (engine : noiseguard.Frame → noiseguard.Frame × ℚ)
    (st : noiseguard.RNNoiseWrapper) (frame : noiseguard.Frame)
    (h1 : st.initialized = true) (h2 : 0 < st.suppressionLevel) :
    (∀ v T, noiseguard.targetGain v T = noiseguard.targetGainSpec v T) ∧
    (noiseguard.processFrame sqrtFn engine st frame).ret
      = (engine (noiseguard.scaleUp frame)).2 ∧
    (noiseguard.processFrame sqrtFn engine st frame).state.smoothGain
      = noiseguard.smoothStep st.smoothGain
          (noiseguard.targetGainSpec ((engine (noiseguard.scaleUp frame)).2)
            st.vadThreshold) := by
  have hspec : ∀ v T,
      noiseguard.targetGain v T = noiseguard.targetGainSpec v T := by
    intro v T
    simp only [noiseguard.targetGain, noiseguard.targetGainSpec,
      noiseguard.kVadHysteresis, noiseguard.kMinGateGain]
  refine ⟨hspec, ?_, ?_⟩ <;>
    simp [noiseguard.processFrame, h1, not_le.mpr h2, hspec]

/-- Witness for C1 at a concrete input: an initialized wrapper at default
settings, a constant engine with VAD `1/4`, the zero frame. -/
theorem C1_target_gain_formula_witness :
    ((noiseguard.init noiseguard.initialWrapper true).1.initialized = true ∧
     0 < (noiseguard.init noiseguard.initialWrapper true).1.suppressionLevel) ∧
    ((∀ v T, noiseguard.targetGain v T = noiseguard.targetGainSpec v T) ∧
     (noiseguard.processFrame id (fun f => (f, 1/4))
        (noiseguard.init noiseguard.initialWrapper true).1 (fun _ => 0)).ret
       = ((fun (f : noiseguard.Frame) => (f, (1:ℚ)/4))
           (noiseguard.scaleUp (fun _ => 0))).2 ∧
     (noiseguard.processFrame id (fun f => (f, 1/4))
        (noiseguard.init noiseguard.initialWrapper true).1 (fun _ => 0)).state.smoothGain
       = noiseguard.smoothStep
           (noiseguard.init noiseguard.initialWrapper true).1.smoothGain
           (noiseguard.targetGainSpec
             (((fun (f : noiseguard.Frame) => (f, (1:ℚ)/4))
                (noiseguard.scaleUp (fun _ => 0))).2)
             (noiseguard.init noiseguard.initialWrapper true).1.vadThreshold)) :=
  ⟨⟨rfl, by norm_num [noiseguard.init, noiseguard.initialWrapper]⟩,
    C1_target_gain_formula id (fun f => (f, 1/4))
      (noiseguard.init noiseguard.initialWrapper true).1 (fun _ => 0) rfl
      (by norm_num [noiseguard.init, noiseguard.initialWrapper])⟩

/-- The smoothing-and-clamp step always lands in `[kMinGateGain, 1]`,
whatever the incoming gain and target. -/
lemma smoothStep_mem (g t : ℚ) :
    noiseguard.kMinGateGain ≤ noiseguard.smoothStep g t ∧
    noiseguard.smoothStep g t ≤ 1 := by
  unfold noiseguard.smoothStep noiseguard.kMinGateGain
  exact ⟨le_min (le_max_right _ _) (by norm_num), min_le_right _ _⟩

/-- `processFrame` either leaves the smoothed gain unchanged
(uninitialized or fast path) or replaces it by a smoothing step. -/
lemma processFrame_smoothGain_cases (sqrtFn : ℚ → ℚ)
    (engine : noiseguard.Frame → noiseguard.Frame × ℚ)
    (st : noiseguard.RNNoiseWrapper) (frame : noiseguard.Frame) :
    (noiseguard.processFrame sqrtFn engine st frame).state.smoothGain
        = st.smoothGain ∨
    ∃ t, (noiseguard.processFrame sqrtFn engine st frame).state.smoothGain
        = noiseguard.smoothStep st.smoothGain t := by
  by_cases h1 : st.initialized = false
  · left; simp [noiseguard.processFrame, h1]
  · by_cases h2 : st.suppressionLevel ≤ 0
    · left; simp [noiseguard.processFrame, h1, h2]
    · right
      exact ⟨noiseguard.targetGain (engine (noiseguard.scaleUp frame)).2
          st.vadThreshold, by simp [noiseguard.processFrame, h1, h2]⟩

/-- The gain invariant is preserved by every call. -/
lemma stepOp_gain_inv (st : noiseguard.RNNoiseWrapper) (op : noiseguard.WrapperOp)
    (h : noiseguard.kMinGateGain ≤ st.smoothGain ∧ st.smoothGain ≤ 1) :
    noiseguard.kMinGateGain ≤ (noiseguard.stepOp st op).smoothGain ∧
    (noiseguard.stepOp st op).smoothGain ≤ 1 := by
  cases op with
  | init ok =>
      constructor <;>
        norm_num [noiseguard.stepOp, noiseguard.init, noiseguard.kMinGateGain]
  | process sq en f =>
      rcases processFrame_smoothGain_cases sq en st f with hc | ⟨t, hc⟩
      · simpa [noiseguard.stepOp, hc] using h
      · simpa [noiseguard.stepOp, hc] using smoothStep_mem st.smoothGain t
  | setLevel v => simpa [noiseguard.stepOp, noiseguard.setSuppressionLevel] using h
  | setThreshold v => simpa [noiseguard.stepOp, noiseguard.setVadThreshold] using h
  | setComfort b => simpa [noiseguard.stepOp, noiseguard.setComfortNoise] using h
  | destroy => simpa [noiseguard.stepOp, noiseguard.destroy] using h

/-- Fold form of the invariant. -/
lemma foldl_gain_inv (ops : List noiseguard.WrapperOp) :
    ∀ st : noiseguard.RNNoiseWrapper,
      noiseguard.kMinGateGain ≤ st.smoothGain ∧ st.smoothGain ≤ 1 →
      noiseguard.kMinGateGain ≤ (ops.foldl noiseguard.stepOp st).smoothGain ∧
      (ops.foldl noiseguard.stepOp st).smoothGain ≤ 1 := by
  induction ops with
  | nil => intro st h; simpa using h
  | cons op ops ih =>
      intro st h
      simpa [List.foldl_cons] using ih _ (stepOp_gain_inv st op h)

/-- **C2.**  Over every sequence of calls on a wrapper — init with either
outcome, processed frames with any oracle engine, frame contents and
settings changes — the smoothed gate gain stays in
`[kMinGateGain, 1] = [0.001, 1.0]` after every call; `init` resets it to
`1.0`, and the default-constructed wrapper starts at `1.0`. -/
theorem C2_smooth_gain_invariant :
    (∀ (st : noiseguard.RNNoiseWrapper) (ok : Bool),
      ((noiseguard.init st ok).1).smoothGain = 1) ∧
    noiseguard.initialWrapper.smoothGain = 1 ∧
    (∀ ops : List noiseguard.WrapperOp,
      noiseguard.kMinGateGain ≤ (noiseguard.runOps ops).smoothGain ∧
      (noiseguard.runOps ops).smoothGain ≤ 1) := by
  refine ⟨fun st ok => rfl, rfl, fun ops => ?_⟩
  exact foldl_gain_inv ops noiseguard.initialWrapper
    (by norm_num [noiseguard.initialWrapper, noiseguard.kMinGateGain])

/-- **C3.**  For an initialized wrapper with suppression level ≤ 0,
`processFrame` leaves the frame unchanged, returns `0.0`, and updates the
metrics with `inputRms = outputRms =` the RMS of the unmodified frame,
`vadProbability = 0`, `currentGain = 1`, and the frame counter incremented
by one. -/
theorem C3_fast_path_passthrough (sqrtFn : ℚ → ℚ)
    (engine : noiseguard.Frame → noiseguard.Frame × ℚ)
    (st : noiseguard.RNNoiseWrapper) (frame : noiseguard.Frame)
    (h1 : st.initialized = true) (h2 : st.suppressionLevel ≤ 0) :
    (noiseguard.processFrame sqrtFn engine st frame).frame = frame ∧
    (noiseguard.processFrame sqrtFn engine st frame).ret = 0 ∧
    (noiseguard.processFrame sqrtFn engine st frame).state.metrics.inputRms
      = noiseguard.computeRms sqrtFn frame ∧
    (noiseguard.processFrame sqrtFn engine st frame).state.metrics.outputRms
      = noiseguard.computeRms sqrtFn frame ∧
    (noiseguard.processFrame sqrtFn engine st frame).state.metrics.vadProbability = 0 ∧
    (noiseguard.processFrame sqrtFn engine st frame).state.metrics.currentGain = 1 ∧
    (noiseguard.processFrame sqrtFn engine st frame).state.metrics.framesProcessed
      = st.metrics.framesProcessed + 1 := by
  simp [noiseguard.processFrame, h1, h2]

/-- Witness for C3: an initialized wrapper with suppression set to 0 and
the zero frame. -/
theorem C3_fast_path_passthrough_witness :
    ((noiseguard.setSuppressionLevel
        (noiseguard.init noiseguard.initialWrapper true).1 0).initialized = true ∧
     (noiseguard.setSuppressionLevel
        (noiseguard.init noiseguard.initialWrapper true).1 0).suppressionLevel ≤ 0) ∧
    (noiseguard.processFrame id (fun f => (f, 1/2))
      (noiseguard.setSuppressionLevel
        (noiseguard.init noiseguard.initialWrapper true).1 0)
      (fun _ => 0)).frame = (fun _ => 0) ∧
    (noiseguard.processFrame id (fun f => (f, 1/2))
      (noiseguard.setSuppressionLevel
        (noiseguard.init noiseguard.initialWrapper true).1 0)
      (fun _ => 0)).ret = 0 ∧
    (noiseguard.processFrame id (fun f => (f, 1/2))
      (noiseguard.setSuppressionLevel
        (noiseguard.init noiseguard.initialWrapper true).1 0)
      (fun _ => 0)).state.metrics.inputRms
      = noiseguard.computeRms id (fun _ => 0) ∧
    (noiseguard.processFrame id (fun f => (f, 1/2))
      (noiseguard.setSuppressionLevel
        (noiseguard.init noiseguard.initialWrapper true).1 0)
      (fun _ => 0)).state.metrics.outputRms
      = noiseguard.computeRms id (fun _ => 0) ∧
    (noiseguard.processFrame id (fun f => (f, 1/2))
      (noiseguard.setSuppressionLevel
        (noiseguard.init noiseguard.initialWrapper true).1 0)
      (fun _ => 0)).state.metrics.vadProbability = 0 ∧
    (noiseguard.processFrame id (fun f => (f, 1/2))
      (noiseguard.setSuppressionLevel
        (noiseguard.init noiseguard.initialWrapper true).1 0)
      (fun _ => 0)).state.metrics.currentGain = 1 ∧
    (noiseguard.processFrame id (fun f => (f, 1/2))
      (noiseguard.setSuppressionLevel
        (noiseguard.init noiseguard.initialWrapper true).1 0)
      (fun _ => 0)).state.metrics.framesProcessed
      = (noiseguard.setSuppressionLevel
          (noiseguard.init noiseguard.initialWrapper true).1 0).metrics.framesProcessed
        + 1 :=
  ⟨⟨rfl, by norm_num [noiseguard.setSuppressionLevel, noiseguard.init,
      noiseguard.initialWrapper]⟩,
    C3_fast_path_passthrough id (fun f => (f, 1/2)) _ (fun _ => 0) rfl
      (by norm_num [noiseguard.setSuppressionLevel, noiseguard.init,
        noiseguard.initialWrapper])⟩

/-- For VAD probability `0` and a threshold of at least the hysteresis
width `0.1`, the target gate gain is the floor `kMinGateGain`. -/
lemma targetGain_zero_of_thresh (T : ℚ) (hT : 1/10 ≤ T) :
    noiseguard.targetGain 0 T = noiseguard.kMinGateGain := by
  unfold noiseguard.targetGain noiseguard.kVadHysteresis noiseguard.kMinGateGain
  rw [if_neg (by intro h; exact absurd (le_trans hT h) (by norm_num))]
  by_cases h2 : (0:ℚ) < T - 1/10
  · rw [if_pos h2, zero_div]; norm_num
  · rw [if_neg h2]
    have hT0 : T = 1/10 := le_antisymm (by linarith) hT
    rw [hT0]; norm_num

/-- **C6 (counterexample).**  The claim fails as stated: it quantifies
over every initialized wrapper, but with the (reachable) VAD threshold
`0.05` and starting smoothed gain `0.1`, a frame with VAD probability
`0.0` lands in the hysteresis band (`T − H = −0.05 ≤ 0 < T`), yielding a
target gain of `0.5005`, so the smoothed gain strictly **increases**
(from `0.1` to `0.13204`) instead of decreasing. -/
theorem C6_counterexample :
    (let st : noiseguard.RNNoiseWrapper :=
      { (noiseguard.init noiseguard.initialWrapper true).1 with
        vadThreshold := 1/20, smoothGain := 1/10 };
     let r := noiseguard.processFrame id (fun f => (f, 0)) st (fun _ => 0);
     st.initialized = true ∧ st.suppressionLevel = 1 ∧
     st.vadThreshold = 1/20 ∧ st.smoothGain = 1/10 ∧
     noiseguard.kMinGateGain ≤ st.smoothGain ∧ st.smoothGain ≤ 1 ∧
     r.ret = 0 ∧ st.smoothGain < r.state.smoothGain) := by
  refine ⟨rfl, rfl, rfl, rfl, ?_, ?_, ?_, ?_⟩ <;>
    norm_num [noiseguard.processFrame, noiseguard.init, noiseguard.initialWrapper,
      noiseguard.smoothStep, noiseguard.targetGain, noiseguard.kGainSmoothCoeff,
      noiseguard.kMinGateGain, noiseguard.kVadHysteresis]

/-- **C6 (amended).**  For every initialized wrapper with suppression
level 1, **VAD threshold at least 0.1**, and starting smoothed gain in
`[0.001, 1]`, a processed frame with VAD probability `0.0` leaves the
smoothed gain no larger than before (strictly smaller while it exceeds
`0.001`), never below `0.001`, and contracts its distance to `0.001` by
the factor `1 − 0.08 = 0.92` — geometric convergence toward `0.001`. -/
theorem C6_gate_close_amended (sqrtFn : ℚ → ℚ)
    (engine : noiseguard.Frame → noiseguard.Frame × ℚ)
    (st : noiseguard.RNNoiseWrapper) (frame : noiseguard.Frame)
    (h1 : st.initialized = true) (h2 : st.suppressionLevel = 1)
    (hT : 1/10 ≤ st.vadThreshold)
    (hg1 : noiseguard.kMinGateGain ≤ st.smoothGain) (hg2 : st.smoothGain ≤ 1)
    (hvad : (engine (noiseguard.scaleUp frame)).2 = 0) :
    (noiseguard.processFrame sqrtFn engine st frame).state.smoothGain
      ≤ st.smoothGain ∧
    (noiseguard.kMinGateGain < st.smoothGain →
      (noiseguard.processFrame sqrtFn engine st frame).state.smoothGain
        < st.smoothGain) ∧
    noiseguard.kMinGateGain
      ≤ (noiseguard.processFrame sqrtFn engine st frame).state.smoothGain ∧
    (noiseguard.processFrame sqrtFn engine st frame).state.smoothGain
        - noiseguard.kMinGateGain
      = (1 - noiseguard.kGainSmoothCoeff)
        * (st.smoothGain - noiseguard.kMinGateGain) := by
  have hlevel : ¬ st.suppressionLevel ≤ 0 := by rw [h2]; norm_num
  have hout : (noiseguard.processFrame sqrtFn engine st frame).state.smoothGain
      = noiseguard.smoothStep st.smoothGain
          (noiseguard.targetGain ((engine (noiseguard.scaleUp frame)).2)
            st.vadThreshold) := by
    simp [noiseguard.processFrame, h1, hlevel]
  rw [hout, hvad, targetGain_zero_of_thresh st.vadThreshold hT]
  unfold noiseguard.smoothStep noiseguard.kMinGateGain noiseguard.kGainSmoothCoeff
  unfold noiseguard.kMinGateGain at hg1
  have hraw1 : (1:ℚ)/1000
      ≤ st.smoothGain + 8/100 * (1/1000 - st.smoothGain) := by linarith
  have hraw2 : st.smoothGain + 8/100 * (1/1000 - st.smoothGain) ≤ 1 := by
    linarith
  rw [max_eq_left hraw1, min_eq_left hraw2]
  refine ⟨by linarith, fun hlt => by linarith, by linarith, by ring⟩

/-- Witness for the amended C6: the freshly initialized wrapper (level 1,
threshold 0.5, gain 1), a zero-VAD engine, the zero frame. -/
theorem C6_gate_close_amended_witness :
    ((noiseguard.init noiseguard.initialWrapper true).1.initialized = true ∧
     (noiseguard.init noiseguard.initialWrapper true).1.suppressionLevel = 1 ∧
     1/10 ≤ (noiseguard.init noiseguard.initialWrapper true).1.vadThreshold ∧
     noiseguard.kMinGateGain
       ≤ (noiseguard.init noiseguard.initialWrapper true).1.smoothGain ∧
     (noiseguard.init noiseguard.initialWrapper true).1.smoothGain ≤ 1 ∧
     ((fun (f : noiseguard.Frame) => (f, (0:ℚ)))
        (noiseguard.scaleUp (fun _ => 0))).2 = 0) ∧
    ((noiseguard.processFrame id (fun f => (f, 0))
        (noiseguard.init noiseguard.initialWrapper true).1
        (fun _ => 0)).state.smoothGain
      ≤ (noiseguard.init noiseguard.initialWrapper true).1.smoothGain ∧
     (noiseguard.kMinGateGain
        < (noiseguard.init noiseguard.initialWrapper true).1.smoothGain →
       (noiseguard.processFrame id (fun f => (f, 0))
          (noiseguard.init noiseguard.initialWrapper true).1
          (fun _ => 0)).state.smoothGain
        < (noiseguard.init noiseguard.initialWrapper true).1.smoothGain) ∧
     noiseguard.kMinGateGain
       ≤ (noiseguard.processFrame id (fun f => (f, 0))
           (noiseguard.init noiseguard.initialWrapper true).1
           (fun _ => 0)).state.smoothGain ∧
     (noiseguard.processFrame id (fun f => (f, 0))
         (noiseguard.init noiseguard.initialWrapper true).1
         (fun _ => 0)).state.smoothGain - noiseguard.kMinGateGain
       = (1 - noiseguard.kGainSmoothCoeff)
         * ((noiseguard.init noiseguard.initialWrapper true).1.smoothGain
            - noiseguard.kMinGateGain)) :=
  ⟨⟨rfl,
    by norm_num [noiseguard.init, noiseguard.initialWrapper],
    by norm_num [noiseguard.init, noiseguard.initialWrapper],
    by norm_num [noiseguard.init, noiseguard.initialWrapper, noiseguard.kMinGateGain],
    by norm_num [noiseguard.init, noiseguard.initialWrapper],
    rfl⟩,
    C6_gate_close_amended id (fun f => (f, 0))
      (noiseguard.init noiseguard.initialWrapper true).1 (fun _ => 0) rfl
      (by norm_num [noiseguard.init, noiseguard.initialWrapper])
      (by norm_num [noiseguard.init, noiseguard.initialWrapper])
      (by norm_num [noiseguard.init, noiseguard.initialWrapper, noiseguard.kMinGateGain])
      (by norm_num [noiseguard.init, noiseguard.initialWrapper])
      rfl⟩

/-- **C8.**  For a wrapper whose engine handle is not initialized,
`processFrame` is a complete no-op: it returns the state unchanged, the
frame unchanged, and `0.0`, with no metric touched. -/
theorem C8_uninitialized_noop (sqrtFn : ℚ → ℚ)
    (engine : noiseguard.Frame → noiseguard.Frame × ℚ)
    (st : noiseguard.RNNoiseWrapper) (frame : noiseguard.Frame)
    (h : st.initialized = false) :
    noiseguard.processFrame sqrtFn engine st frame = ⟨st, frame, 0⟩ := by
  simp [noiseguard.processFrame, h]

/-- Witness for C8: the default-constructed (never initialized) wrapper. -/
theorem C8_uninitialized_noop_witness :
    noiseguard.initialWrapper.initialized = false ∧
    noiseguard.processFrame id (fun f => (f, 1/2)) noiseguard.initialWrapper
      (fun _ => 0) = ⟨noiseguard.initialWrapper, (fun _ => 0), 0⟩ :=
  ⟨rfl, C8_uninitialized_noop id (fun f => (f, 1/2)) noiseguard.initialWrapper
    (fun _ => 0) rfl⟩

/-- The comfort-noise loop advances the generator state once per
iteration: after `n ≤ 480` iterations the state is the `n`-fold
xorshift32 iterate. -/
lemma comfortLoop_fst (scale : ℚ) (s : Nat) (f : noiseguard.Frame) :
    ∀ n, n ≤ noiseguard.kRNNoiseFrameSize →
      (noiseguard.comfortLoop scale s f n).1 = noiseguard.xorshift32^[n] s := by
  intro n
  induction n with
  | zero => intro _; simp [noiseguard.comfortLoop]
  | succ n ih =>
      intro hn
      simp only [noiseguard.comfortLoop]
      rw [dif_pos (by omega : n < noiseguard.kRNNoiseFrameSize)]
      simp only [noiseguard.comfortNoiseSample, ih (by omega),
        Function.iterate_succ_apply']

/-- After `n ≤ 480` iterations of the comfort-noise loop, sample `i` has
received exactly one freshly drawn noise sample — the `(i+1)`-th draw —
scaled by `scale`, if `i < n`, and is untouched otherwise. -/
lemma comfortLoop_snd (scale : ℚ) (s : Nat) (f : noiseguard.Frame) :
    ∀ n, n ≤ noiseguard.kRNNoiseFrameSize →
      ∀ i : Fin noiseguard.kRNNoiseFrameSize,
      (noiseguard.comfortLoop scale s f n).2 i =
        if (i : Nat) < n
        then f i + (noiseguard.comfortNoiseSample
            (noiseguard.xorshift32^[(i : Nat)] s)).2 * scale
        else f i := by
  intro n
  induction n with
  | zero => intro _ i; simp [noiseguard.comfortLoop]
  | succ n ih =>
      intro hn i
      have hn' : n < noiseguard.kRNNoiseFrameSize := by omega
      simp only [noiseguard.comfortLoop]
      rw [dif_pos hn']
      simp only [Function.update_apply]
      by_cases hi : i = ⟨n, hn'⟩
      · subst hi
        rw [if_pos rfl, ih (by omega) ⟨n, hn'⟩]
        rw [comfortLoop_fst scale s f n (by omega)]
        simp
      · rw [if_neg hi, ih (by omega) i]
        have hne : (i : Nat) ≠ n := fun h =>
          hi (Fin.ext (by simpa using h))
        by_cases hlt : (i : Nat) < n
        · rw [if_pos hlt, if_pos (by omega)]
        · rw [if_neg hlt, if_neg (by omega)]

/-- **C7.**  In the full path: if comfort noise is enabled and the
smoothed gain is below `0.1`, every one of the 480 output samples has
added to it one freshly drawn xorshift32 sample (drawn in index order,
mapped via its signed 32-bit reinterpretation divided by `2³¹` and scaled
by `0.001`) multiplied by `(0.1 − gain)/0.1`, and the generator state
advances exactly 480 times; if comfort noise is disabled, the frame after
the gain multiplication is returned unmodified and the generator state
does not advance. -/
theorem C7_comfort_noise_injection (sqrtFn : ℚ → ℚ)
    (engine : noiseguard.Frame → noiseguard.Frame × ℚ)
    (st : noiseguard.RNNoiseWrapper) (frame : noiseguard.Frame)
    (g : ℚ) (gated : noiseguard.Frame)
    (h1 : st.initialized = true) (h2 : 0 < st.suppressionLevel)
    (hg : g = noiseguard.smoothStep st.smoothGain
        (noiseguard.targetGain ((engine (noiseguard.scaleUp frame)).2)
          st.vadThreshold))
    (hgated : gated = noiseguard.applyGain g
        (noiseguard.blend st.suppressionLevel frame
          (noiseguard.scaleDown (engine (noiseguard.scaleUp frame)).1))) :
    (st.comfortNoiseEnabled = true ∧ g < 1/10 →
      (∀ i, (noiseguard.processFrame sqrtFn engine st frame).frame i
        = gated i + (noiseguard.comfortNoiseSample
            (noiseguard.xorshift32^[(i : Nat)] st.noiseState)).2
          * ((1/10 - g) / (1/10))) ∧
      (noiseguard.processFrame sqrtFn engine st frame).state.noiseState
        = noiseguard.xorshift32^[noiseguard.kRNNoiseFrameSize] st.noiseState) ∧
    (st.comfortNoiseEnabled = false →
      (noiseguard.processFrame sqrtFn engine st frame).frame = gated ∧
      (noiseguard.processFrame sqrtFn engine st frame).state.noiseState
        = st.noiseState) := by
  subst hg; subst hgated
  have hframe : (noiseguard.processFrame sqrtFn engine st frame).frame
      = (noiseguard.comfortPhase st.comfortNoiseEnabled
          (noiseguard.smoothStep st.smoothGain
            (noiseguard.targetGain ((engine (noiseguard.scaleUp frame)).2)
              st.vadThreshold))
          st.noiseState
          (noiseguard.applyGain
            (noiseguard.smoothStep st.smoothGain
              (noiseguard.targetGain ((engine (noiseguard.scaleUp frame)).2)
                st.vadThreshold))
            (noiseguard.blend st.suppressionLevel frame
              (noiseguard.scaleDown (engine (noiseguard.scaleUp frame)).1)))).2 := by
    simp [noiseguard.processFrame, h1, not_le.mpr h2]
  have hstate : (noiseguard.processFrame sqrtFn engine st frame).state.noiseState
      = (noiseguard.comfortPhase st.comfortNoiseEnabled
          (noiseguard.smoothStep st.smoothGain
            (noiseguard.targetGain ((engine (noiseguard.scaleUp frame)).2)
              st.vadThreshold))
          st.noiseState
          (noiseguard.applyGain
            (noiseguard.smoothStep st.smoothGain
              (noiseguard.targetGain ((engine (noiseguard.scaleUp frame)).2)
                st.vadThreshold))
            (noiseguard.blend st.suppressionLevel frame
              (noiseguard.scaleDown (engine (noiseguard.scaleUp frame)).1)))).1 := by
    simp [noiseguard.processFrame, h1, not_le.mpr h2]
  constructor
  · rintro ⟨he, hlt⟩
    rw [hframe, hstate]
    unfold noiseguard.comfortPhase
    rw [if_pos ⟨he, hlt⟩]
    constructor
    · intro i
      rw [comfortLoop_snd _ _ _ noiseguard.kRNNoiseFrameSize le_rfl i,
        if_pos i.isLt]
    · exact comfortLoop_fst _ _ _ noiseguard.kRNNoiseFrameSize le_rfl
  · intro he
    rw [hframe, hstate]
    unfold noiseguard.comfortPhase
    rw [if_neg (by simp [he])]
    exact ⟨rfl, rfl⟩

/-- Witness for C7: the freshly initialized wrapper, a zero-VAD constant
engine, the zero frame, with the gain and gated frame instantiated to
their defining expressions. -/
theorem C7_comfort_noise_injection_witness :
    ((noiseguard.init noiseguard.initialWrapper true).1.initialized = true ∧
     0 < (noiseguard.init noiseguard.initialWrapper true).1.suppressionLevel) ∧
    (((noiseguard.init noiseguard.initialWrapper true).1.comfortNoiseEnabled = true ∧
        noiseguard.smoothStep
          (noiseguard.init noiseguard.initialWrapper true).1.smoothGain
          (noiseguard.targetGain
            (((fun (f : noiseguard.Frame) => (f, (0:ℚ)))
              (noiseguard.scaleUp (fun _ => 0))).2)
            (noiseguard.init noiseguard.initialWrapper true).1.vadThreshold) < 1/10 →
      (∀ i, (noiseguard.processFrame id (fun f => (f, 0))
          (noiseguard.init noiseguard.initialWrapper true).1 (fun _ => 0)).frame i
        = noiseguard.applyGain
            (noiseguard.smoothStep
              (noiseguard.init noiseguard.initialWrapper true).1.smoothGain
              (noiseguard.targetGain
                (((fun (f : noiseguard.Frame) => (f, (0:ℚ)))
                  (noiseguard.scaleUp (fun _ => 0))).2)
                (noiseguard.init noiseguard.initialWrapper true).1.vadThreshold))
            (noiseguard.blend
              (noiseguard.init noiseguard.initialWrapper true).1.suppressionLevel
              (fun _ => 0)
              (noiseguard.scaleDown
                ((fun (f : noiseguard.Frame) => (f, (0:ℚ)))
                  (noiseguard.scaleUp (fun _ => 0))).1)) i
          + (noiseguard.comfortNoiseSample
              (noiseguard.xorshift32^[(i : Nat)]
                (noiseguard.init noiseguard.initialWrapper true).1.noiseState)).2
            * ((1/10 - noiseguard.smoothStep
                (noiseguard.init noiseguard.initialWrapper true).1.smoothGain
                (noiseguard.targetGain
                  (((fun (f : noiseguard.Frame) => (f, (0:ℚ)))
                    (noiseguard.scaleUp (fun _ => 0))).2)
                  (noiseguard.init noiseguard.initialWrapper true).1.vadThreshold))
              / (1/10))) ∧
      (noiseguard.processFrame id (fun f => (f, 0))
          (noiseguard.init noiseguard.initialWrapper true).1
          (fun _ => 0)).state.noiseState
        = noiseguard.xorshift32^[noiseguard.kRNNoiseFrameSize]
            (noiseguard.init noiseguard.initialWrapper true).1.noiseState) ∧
     ((noiseguard.init noiseguard.initialWrapper true).1.comfortNoiseEnabled = false →
      (noiseguard.processFrame id (fun f => (f, 0))
          (noiseguard.init noiseguard.initialWrapper true).1 (fun _ => 0)).frame
        = noiseguard.applyGain
            (noiseguard.smoothStep
              (noiseguard.init noiseguard.initialWrapper true).1.smoothGain
              (noiseguard.targetGain
                (((fun (f : noiseguard.Frame) => (f, (0:ℚ)))
                  (noiseguard.scaleUp (fun _ => 0))).2)
                (noiseguard.init noiseguard.initialWrapper true).1.vadThreshold))
            (noiseguard.blend
              (noiseguard.init noiseguard.initialWrapper true).1.suppressionLevel
              (fun _ => 0)
              (noiseguard.scaleDown
                ((fun (f : noiseguard.Frame) => (f, (0:ℚ)))
                  (noiseguard.scaleUp (fun _ => 0))).1)) ∧
      (noiseguard.processFrame id (fun f => (f, 0))
          (noiseguard.init noiseguard.initialWrapper true).1
          (fun _ => 0)).state.noiseState
        = (noiseguard.init noiseguard.initialWrapper true).1.noiseState)) :=
  ⟨⟨rfl, by norm_num [noiseguard.init, noiseguard.initialWrapper]⟩,
    C7_comfort_noise_injection id (fun f => (f, 0))
      (noiseguard.init noiseguard.initialWrapper true).1 (fun _ => 0) _ _ rfl
      (by norm_num [noiseguard.init, noiseguard.initialWrapper]) rfl rfl⟩

/-- The rounded capacity is always at least 1. -/
lemma nextPowerOf2_pos (n : Nat) : 1 ≤ ainoiceguard.nextPowerOf2 n := by
  unfold ainoiceguard.nextPowerOf2
  split <;> omega

/-- `write` preserves the index ordering invariant (and the capacity). -/
lemma write_inv (rb : ainoiceguard.RingBuffer) (src : Nat → ℚ) (count : Nat)
    (h1 : rb.readIdx ≤ rb.writeIdx)
    (h2 : rb.writeIdx + 1 ≤ rb.readIdx + rb.capacity) :
    (rb.write src count).1.capacity = rb.capacity ∧
    (rb.write src count).1.readIdx ≤ (rb.write src count).1.writeIdx ∧
    (rb.write src count).1.writeIdx + 1
      ≤ (rb.write src count).1.readIdx + (rb.write src count).1.capacity := by
  unfold ainoiceguard.RingBuffer.write
  dsimp only
  split_ifs <;> simp_all <;> omega

/-- `read` preserves the index ordering invariant (and the capacity). -/
lemma read_inv (rb : ainoiceguard.RingBuffer) (count : Nat)
    (h1 : rb.readIdx ≤ rb.writeIdx)
    (h2 : rb.writeIdx + 1 ≤ rb.readIdx + rb.capacity) :
    (rb.read count).1.capacity = rb.capacity ∧
    (rb.read count).1.readIdx ≤ (rb.read count).1.writeIdx ∧
    (rb.read count).1.writeIdx + 1
      ≤ (rb.read count).1.readIdx + (rb.read count).1.capacity := by
  unfold ainoiceguard.RingBuffer.read
  dsimp only
  split_ifs <;> simp_all <;> omega

/-- `write` never reports more than the free space
`capacity − available_read − 1` computed at call time (for any state at
all). -/
lemma write_count_le_free (rb : ainoiceguard.RingBuffer) (src : Nat → ℚ)
    (count : Nat) :
    (rb.write src count).2 ≤ rb.capacity - rb.available_read - 1 := by
  unfold ainoiceguard.RingBuffer.write ainoiceguard.RingBuffer.available_read
  dsimp only
  split_ifs <;> simp_all

/-- The index invariant holds at every state reachable from a freshly
constructed ring buffer. -/
lemma runRB_inv (requested : Nat) (initStore : Nat → ℚ)
    (ops : List ainoiceguard.RBOp) :
    1 ≤ (ainoiceguard.runRB requested initStore ops).capacity ∧
    (ainoiceguard.runRB requested initStore ops).readIdx
      ≤ (ainoiceguard.runRB requested initStore ops).writeIdx ∧
    (ainoiceguard.runRB requested initStore ops).writeIdx + 1
      ≤ (ainoiceguard.runRB requested initStore ops).readIdx
        + (ainoiceguard.runRB requested initStore ops).capacity := by
  suffices h : ∀ (ops : List ainoiceguard.RBOp) (rb : ainoiceguard.RingBuffer),
      1 ≤ rb.capacity → rb.readIdx ≤ rb.writeIdx →
      rb.writeIdx + 1 ≤ rb.readIdx + rb.capacity →
      1 ≤ (ops.foldl ainoiceguard.stepRB rb).capacity ∧
      (ops.foldl ainoiceguard.stepRB rb).readIdx
        ≤ (ops.foldl ainoiceguard.stepRB rb).writeIdx ∧
      (ops.foldl ainoiceguard.stepRB rb).writeIdx + 1
        ≤ (ops.foldl ainoiceguard.stepRB rb).readIdx
          + (ops.foldl ainoiceguard.stepRB rb).capacity by
    exact h ops _ (nextPowerOf2_pos requested) (Nat.le_refl 0)
      (by simpa [ainoiceguard.mkRingBuffer] using nextPowerOf2_pos requested)
  intro ops
  induction ops with
  | nil => intro rb hc h1 h2; exact ⟨hc, h1, h2⟩
  | cons op ops ih =>
      intro rb hc h1 h2
      rw [List.foldl_cons]
      cases op with
      | write src count =>
          obtain ⟨e1, e2, e3⟩ := write_inv rb src count h1 h2
          exact ih _ (e1 ▸ hc) e2 e3
      | read count =>
          obtain ⟨e1, e2, e3⟩ := read_inv rb count h1 h2
          exact ih _ (e1 ▸ hc) e2 e3

/-- **C4.**  Starting from an empty ring buffer, after every sequence of
interleaved `write`/`read` calls the logical indices satisfy
`read ≤ write ≤ read + capacity − 1`; consequently
`available_read() ≤ capacity − 1` always, and a further `write` never
reports writing more than the free space `capacity − used − 1` computed
at call time. -/
theorem C4_ring_buffer_invariant (requested : Nat) (initStore : Nat → ℚ)
    (ops : List ainoiceguard.RBOp) :
    (ainoiceguard.runRB requested initStore ops).readIdx
      ≤ (ainoiceguard.runRB requested initStore ops).writeIdx ∧
    (ainoiceguard.runRB requested initStore ops).writeIdx
      ≤ (ainoiceguard.runRB requested initStore ops).readIdx
        + (ainoiceguard.runRB requested initStore ops).capacity - 1 ∧
    (ainoiceguard.runRB requested initStore ops).available_read
      ≤ (ainoiceguard.runRB requested initStore ops).capacity - 1 ∧
    ∀ (src : Nat → ℚ) (count : Nat),
      ((ainoiceguard.runRB requested initStore ops).write src count).2
        ≤ (ainoiceguard.runRB requested initStore ops).capacity
          - (ainoiceguard.runRB requested initStore ops).available_read - 1 := by
  obtain ⟨hc, h1, h2⟩ := runRB_inv requested initStore ops
  refine ⟨h1, by omega, ?_, fun src count => write_count_le_free _ src count⟩
  unfold ainoiceguard.RingBuffer.available_read
  rw [if_pos h1]
  omega

/-- **C10.**  The suppression-off fast path leaves the internal smoothed
gate gain and the comfort-noise generator state unchanged even though it
stores `1.0` into the `currentGain` metric — so when suppression later
becomes positive, smoothing resumes from the pre-passthrough smoothed
gain, which the reported `1.0` need not equal. -/
theorem C10_fast_path_preserves_internal_state (sqrtFn : ℚ → ℚ)
    (engine : noiseguard.Frame → noiseguard.Frame × ℚ)
    (st : noiseguard.RNNoiseWrapper) (frame : noiseguard.Frame)
    (h1 : st.initialized = true) (h2 : st.suppressionLevel ≤ 0) :
    (noiseguard.processFrame sqrtFn engine st frame).state.smoothGain
      = st.smoothGain ∧
    (noiseguard.processFrame sqrtFn engine st frame).state.noiseState
      = st.noiseState ∧
    (noiseguard.processFrame sqrtFn engine st frame).state.metrics.currentGain
      = 1 := by
  simp [noiseguard.processFrame, h1, h2]

/-- Witness for C10: a fast-path call on a wrapper whose smoothed gain is
`1/2`; the internal gain stays `1/2` while the metric reports `1`. -/
theorem C10_fast_path_preserves_internal_state_witness :
    (({ noiseguard.setSuppressionLevel
          (noiseguard.init noiseguard.initialWrapper true).1 0 with
        smoothGain := 1/2 } : noiseguard.RNNoiseWrapper).initialized = true ∧
     ({ noiseguard.setSuppressionLevel
          (noiseguard.init noiseguard.initialWrapper true).1 0 with
        smoothGain := 1/2 } : noiseguard.RNNoiseWrapper).suppressionLevel ≤ 0) ∧
    (noiseguard.processFrame id (fun f => (f, 1/2))
      ({ noiseguard.setSuppressionLevel
           (noiseguard.init noiseguard.initialWrapper true).1 0 with
         smoothGain := 1/2 }) (fun _ => 0)).state.smoothGain
      = ({ noiseguard.setSuppressionLevel
             (noiseguard.init noiseguard.initialWrapper true).1 0 with
           smoothGain := 1/2 } : noiseguard.RNNoiseWrapper).smoothGain ∧
    (noiseguard.processFrame id (fun f => (f, 1/2))
      ({ noiseguard.setSuppressionLevel
           (noiseguard.init noiseguard.initialWrapper true).1 0 with
         smoothGain := 1/2 }) (fun _ => 0)).state.noiseState
      = ({ noiseguard.setSuppressionLevel
             (noiseguard.init noiseguard.initialWrapper true).1 0 with
           smoothGain := 1/2 } : noiseguard.RNNoiseWrapper).noiseState ∧
    (noiseguard.processFrame id (fun f => (f, 1/2))
      ({ noiseguard.setSuppressionLevel
           (noiseguard.init noiseguard.initialWrapper true).1 0 with
         smoothGain := 1/2 }) (fun _ => 0)).state.metrics.currentGain = 1 :=
  ⟨⟨rfl, by norm_num [noiseguard.setSuppressionLevel, noiseguard.init,
      noiseguard.initialWrapper]⟩,
    C10_fast_path_preserves_internal_state id (fun f => (f, 1/2)) _ (fun _ => 0)
      rfl (by norm_num [noiseguard.setSuppressionLevel, noiseguard.init,
        noiseguard.initialWrapper])⟩


/-! ### Ring buffer: power-of-two capacity, FIFO round trip, concrete scenario -/

/-- Bit `i` of `m ||| (m >>> k)` is bit `i` or bit `k + i` of `m`. -/
lemma orShift_testBit (m k i : Nat) :
    (ainoiceguard.orShift m k).testBit i
      = (m.testBit i || m.testBit (k + i)) := by
  unfold ainoiceguard.orShift
  rw [Nat.testBit_lor, Nat.testBit_shiftRight]

/-- One smearing step doubles the window of source bits that can set a
given bit. -/
lemma smearStep {m2 m t : Nat}
    (hm : ∀ i, m2.testBit i = true ↔ ∃ j, j < t ∧ m.testBit (i + j) = true) :
    ∀ i, (ainoiceguard.orShift m2 t).testBit i = true ↔
      ∃ j, j < 2 * t ∧ m.testBit (i + j) = true := by
  intro i
  rw [orShift_testBit, Bool.or_eq_true, hm i, hm (t + i)]
  constructor
  · rintro (⟨j, hj, hb⟩ | ⟨j, hj, hb⟩)
    · exact ⟨j, by omega, hb⟩
    · exact ⟨t + j, by omega, by rwa [show i + (t + j) = t + i + j by omega]⟩
  · rintro ⟨j, hj, hb⟩
    by_cases h : j < t
    · exact Or.inl ⟨j, h, hb⟩
    · exact Or.inr ⟨j - t, by omega,
        by rwa [show t + i + (j - t) = i + j by omega]⟩

/-- After the six OR-shift steps by 1, 2, 4, 8, 16, 32, bit `i` of the
result is set iff some bit in the window `[i, i + 63]` of the input is. -/
lemma smear_testBit (m : Nat) :
    ∀ i, (ainoiceguard.orShift (ainoiceguard.orShift (ainoiceguard.orShift
        (ainoiceguard.orShift (ainoiceguard.orShift (ainoiceguard.orShift m 1)
          2) 4) 8) 16) 32).testBit i = true ↔
      ∃ j, j < 64 ∧ m.testBit (i + j) = true := by
  have h0 : ∀ i, m.testBit i = true ↔
      ∃ j, j < 1 ∧ m.testBit (i + j) = true := by
    intro i
    constructor
    · intro h; exact ⟨0, by omega, by simpa using h⟩
    · rintro ⟨j, hj, hb⟩
      have : j = 0 := by omega
      subst this; simpa using hb
  have h1 := smearStep h0
  have h2 := smearStep h1
  have h3 := smearStep h2
  have h4 := smearStep h3
  have h5 := smearStep h4
  have h6 := smearStep h5
  intro i
  simpa using h6 i

/-- The top bit of a nonzero number is set. -/
lemma testBit_size_sub_one {m : Nat} (hm : m ≠ 0) :
    m.testBit (Nat.size m - 1) = true := by
  have hpos : 0 < Nat.size m := Nat.size_pos.mpr (Nat.pos_of_ne_zero hm)
  have h1 : 2 ^ (Nat.size m - 1) ≤ m := Nat.lt_size.mp (by omega)
  have h2 : m < 2 ^ Nat.size m := Nat.lt_size_self m
  have h3 : m / 2 ^ (Nat.size m - 1) = 1 := by
    apply Nat.div_eq_of_lt_le (by simpa using h1)
    have : 2 * 2 ^ (Nat.size m - 1) = 2 ^ Nat.size m := by
      rw [← pow_succ']
      congr 1
      omega
    omega
  rw [Nat.testBit_to_div_mod, h3]
  simp

/-- For a 64-bit input, the smeared value is the all-ones word of the
input's bit length. -/
lemma smear_eq (m : Nat) (hm : m < 2 ^ 64) :
    (ainoiceguard.orShift (ainoiceguard.orShift (ainoiceguard.orShift
        (ainoiceguard.orShift (ainoiceguard.orShift (ainoiceguard.orShift m 1)
          2) 4) 8) 16) 32) = 2 ^ Nat.size m - 1 := by
  apply Nat.eq_of_testBit_eq
  intro i
  rw [Nat.testBit_two_pow_sub_one]
  by_cases h : i < Nat.size m
  · have hm0 : m ≠ 0 := by
      intro h0; subst h0; simp [Nat.size_zero] at h
    have hbit := testBit_size_sub_one hm0
    have hset : (ainoiceguard.orShift (ainoiceguard.orShift (ainoiceguard.orShift
        (ainoiceguard.orShift (ainoiceguard.orShift (ainoiceguard.orShift m 1)
          2) 4) 8) 16) 32).testBit i = true := by
      rw [smear_testBit]
      have hs64 : Nat.size m ≤ 64 := Nat.size_le.mpr hm
      exact ⟨Nat.size m - 1 - i, by omega,
        by rwa [show i + (Nat.size m - 1 - i) = Nat.size m - 1 by omega]⟩
    rw [hset]
    simp [h]
  · have hclear : (ainoiceguard.orShift (ainoiceguard.orShift (ainoiceguard.orShift
        (ainoiceguard.orShift (ainoiceguard.orShift (ainoiceguard.orShift m 1)
          2) 4) 8) 16) 32).testBit i = false := by
      rw [← Bool.not_eq_true, smear_testBit]
      rintro ⟨j, hj, hb⟩
      have hfalse : m.testBit (i + j) = false :=
        Nat.testBit_lt_two_pow
          (lt_of_lt_of_le (Nat.lt_size_self m)
            (Nat.pow_le_pow_right (by norm_num) (by omega)))
      rw [hfalse] at hb
      exact Bool.false_ne_true hb
    rw [hclear]
    simp
    omega

/-- For any `size_t` request, the rounded capacity is a power of two. -/
lemma nextPowerOf2_two_pow (n : Nat) (hn : n < 2 ^ 64) :
    ∃ k, ainoiceguard.nextPowerOf2 n = 2 ^ k := by
  by_cases h0 : n = 0
  · exact ⟨0, by simp [h0, ainoiceguard.nextPowerOf2]⟩
  · refine ⟨Nat.size (n - 1), ?_⟩
    unfold ainoiceguard.nextPowerOf2
    rw [if_neg h0, smear_eq (n - 1) (by omega)]
    have : 1 ≤ 2 ^ Nat.size (n - 1) := Nat.one_le_two_pow
    omega

/-- The copy loop writes `src i` at position `w + i` when the masked
positions coincide with the plain ones, and touches nothing else. -/
lemma writeLoop_at (src : Nat → ℚ) (w mask : Nat) (buf : Nat → ℚ) :
    ∀ n, (∀ i, i < n → (w + i) &&& mask = w + i) →
    ∀ p, ainoiceguard.writeLoop src w mask buf n p
      = if w ≤ p ∧ p < w + n then src (p - w) else buf p := by
  intro n
  induction n with
  | zero =>
      intro _ p
      rw [if_neg (by omega)]
      rfl
  | succ n ih =>
      intro h p
      simp only [ainoiceguard.writeLoop]
      rw [h n (by omega), Function.update_apply]
      by_cases hp : p = w + n
      · subst hp
        rw [if_pos rfl, if_pos (by omega)]
        congr 1
        omega
      · rw [if_neg hp, ih (fun i hi => h i (by omega)) p]
        by_cases hlt : w ≤ p ∧ p < w + n
        · rw [if_pos hlt, if_pos (by omega)]
        · rw [if_neg hlt, if_neg (by omega)]

/-- `write` on a power-of-two buffer with read index 0: the reported
count is the clamp of the request to the free space, the write index
advances by it, and the clamped prefix of the source lands at plain
positions `writeIdx, …`. -/
lemma write_spec (rb : ainoiceguard.RingBuffer) (src : Nat → ℚ)
    (count k : Nat) (hcap : rb.capacity = 2 ^ k) (hr : rb.readIdx = 0) :
    (rb.write src count).2 = min count (rb.capacity - rb.writeIdx - 1) ∧
    (rb.write src count).1.capacity = rb.capacity ∧
    (rb.write src count).1.readIdx = 0 ∧
    (rb.write src count).1.writeIdx
      = rb.writeIdx + min count (rb.capacity - rb.writeIdx - 1) ∧
    ∀ p, (rb.write src count).1.buffer p
      = if rb.writeIdx ≤ p ∧
            p < rb.writeIdx + min count (rb.capacity - rb.writeIdx - 1)
        then src (p - rb.writeIdx) else rb.buffer p := by
  unfold ainoiceguard.RingBuffer.write
  rw [hr]
  simp only [ge_iff_le, Nat.zero_le, if_true, Nat.sub_zero]
  have hmin : (if count > rb.capacity - rb.writeIdx - 1
      then rb.capacity - rb.writeIdx - 1 else count)
      = min count (rb.capacity - rb.writeIdx - 1) := by
    split <;> omega
  rw [hmin]
  by_cases hz : min count (rb.capacity - rb.writeIdx - 1) = 0
  · rw [if_pos hz, hz]
    dsimp only
    refine ⟨rfl, rfl, hr, by omega, fun p => ?_⟩
    rw [if_neg (by omega)]
  · rw [if_neg hz]
    dsimp only
    refine ⟨rfl, rfl, rfl, rfl, fun p => ?_⟩
    rw [writeLoop_at src rb.writeIdx (rb.capacity - 1) rb.buffer
      (min count (rb.capacity - rb.writeIdx - 1)) (fun i hi => ?_) p]
    rw [hcap]
    exact Nat.and_pow_two_sub_one_of_lt_two_pow (by rw [← hcap]; omega)

/-- Writing a chunk sequence whose total fits below `capacity − 1` into a
power-of-two buffer with read index 0 reports every chunk in full and
lays the concatenation down contiguously. -/
lemma writeAll_spec (k : Nat) :
    ∀ (cs : List (List ℚ)) (rb : ainoiceguard.RingBuffer),
      rb.capacity = 2 ^ k → rb.readIdx = 0 →
      rb.writeIdx + cs.flatten.length ≤ rb.capacity - 1 →
      ainoiceguard.writesAllFull rb cs ∧
      (ainoiceguard.writeAll rb cs).capacity = rb.capacity ∧
      (ainoiceguard.writeAll rb cs).readIdx = 0 ∧
      (ainoiceguard.writeAll rb cs).writeIdx
        = rb.writeIdx + cs.flatten.length ∧
      ∀ p, (ainoiceguard.writeAll rb cs).buffer p
        = if rb.writeIdx ≤ p ∧ p < rb.writeIdx + cs.flatten.length
          then cs.flatten.getD (p - rb.writeIdx) 0
          else rb.buffer p := by
  intro cs
  induction cs with
  | nil =>
      intro rb hcap hr hbound
      refine ⟨trivial, rfl, hr, by simp [ainoiceguard.writeAll], fun p => ?_⟩
      show rb.buffer p = _
      rw [if_neg (by simp only [List.flatten_nil, List.length_nil,
        Nat.add_zero]; omega)]
  | cons c cs ih =>
      intro rb hcap hr hbound
      simp only [List.flatten_cons, List.length_append] at hbound ⊢
      simp only [ainoiceguard.writeAll, ainoiceguard.writesAllFull]
      obtain ⟨w2, wcap, wr, wix, wbuf⟩ :=
        write_spec rb (fun i => c.getD i 0) c.length k hcap hr
      have hwl : rb.write (fun i => c.getD i 0) c.length
          = ainoiceguard.writeList rb c := rfl
      rw [hwl] at w2 wcap wr wix wbuf
      have hminc : min c.length (rb.capacity - rb.writeIdx - 1)
          = c.length := by omega
      rw [hminc] at w2 wix wbuf
      have hbound2 : (ainoiceguard.writeList rb c).1.writeIdx
          + cs.flatten.length
          ≤ (ainoiceguard.writeList rb c).1.capacity - 1 := by
        rw [wix, wcap]; omega
      obtain ⟨afull, acap, ar, aix, abuf⟩ :=
        ih (ainoiceguard.writeList rb c).1 (by rw [wcap, hcap]) wr hbound2
      refine ⟨⟨w2, afull⟩, by rw [acap, wcap], ar, ?_, fun p => ?_⟩
      · rw [aix, wix]; omega
      · rw [abuf p, wix]
        by_cases h1 : rb.writeIdx + c.length ≤ p ∧
            p < rb.writeIdx + c.length + cs.flatten.length
        · rw [if_pos h1, if_pos (by omega)]
          rw [List.getD_append_right c cs.flatten 0 (p - rb.writeIdx)
            (by omega)]
          congr 1
          omega
        · rw [if_neg h1, wbuf p]
          by_cases h2 : rb.writeIdx ≤ p ∧ p < rb.writeIdx + c.length
          · rw [if_pos h2, if_pos (by omega)]
            rw [List.getD_append c cs.flatten 0 (p - rb.writeIdx) (by omega)]
          · rw [if_neg h2, if_neg (by omega)]

/-- `read` of exactly the used count on a power-of-two buffer with read
index 0 returns the plain-position prefix of the store, in order. -/
lemma read_spec (rb : ainoiceguard.RingBuffer) (k N : Nat)
    (hcap : rb.capacity = 2 ^ k) (hr : rb.readIdx = 0)
    (hwx : rb.writeIdx = N) (hN : N ≤ rb.capacity - 1) :
    (rb.read N).2 = (List.range N).map (fun i => rb.buffer i) ∧
    (rb.read N).1.readIdx = N ∧
    (rb.read N).1.writeIdx = N := by
  unfold ainoiceguard.RingBuffer.read
  rw [hr, hwx]
  simp only [ge_iff_le, Nat.zero_le, if_true, Nat.sub_zero, gt_iff_lt,
    lt_irrefl, if_false]
  by_cases hz : N = 0
  · subst hz
    simpa using ⟨hr, hwx⟩
  · rw [if_neg hz]
    dsimp only
    refine ⟨?_, by omega, rfl⟩
    apply List.map_congr_left
    intro a ha
    have haN : a < N := List.mem_range.mp ha
    congr 1
    rw [Nat.zero_add, hcap]
    exact Nat.and_pow_two_sub_one_of_lt_two_pow (by rw [← hcap]; omega)

/-- Reading from a drained buffer (`writeIdx = readIdx`) returns no
samples, whatever the requested count. -/
lemma read_drained (rb : ainoiceguard.RingBuffer) (count : Nat)
    (h : rb.writeIdx = rb.readIdx) :
    (rb.read count).2 = [] := by
  unfold ainoiceguard.RingBuffer.read
  rw [h]
  simp only [ge_iff_le, le_refl, if_true, Nat.sub_self, gt_iff_lt]
  split_ifs <;> simp_all

/-- **C5.**  Writing any sample sequence of total length
`N ≤ capacity − 1` into a freshly constructed ring buffer, as any
sequence of chunked `write` calls, reports every chunk in full, and a
subsequent `read` of `N` samples returns exactly the written sequence in
order. -/
theorem C5_fifo_round_trip (requested : Nat) (initStore : Nat → ℚ)
    (chunks : List (List ℚ)) (hreq : requested < 2 ^ 64)
    (hN : chunks.flatten.length
      ≤ (ainoiceguard.mkRingBuffer requested initStore).capacity - 1) :
    ainoiceguard.writesAllFull (ainoiceguard.mkRingBuffer requested initStore)
      chunks ∧
    ((ainoiceguard.writeAll (ainoiceguard.mkRingBuffer requested initStore)
        chunks).read chunks.flatten.length).2 = chunks.flatten := by
  obtain ⟨k, hk⟩ := nextPowerOf2_two_pow requested hreq
  have hcap : (ainoiceguard.mkRingBuffer requested initStore).capacity
      = 2 ^ k := hk
  obtain ⟨afull, acap, ar, aix, abuf⟩ :=
    writeAll_spec k chunks (ainoiceguard.mkRingBuffer requested initStore)
      hcap rfl (by simpa [ainoiceguard.mkRingBuffer] using hN)
  refine ⟨afull, ?_⟩
  have aix0 : (ainoiceguard.writeAll
      (ainoiceguard.mkRingBuffer requested initStore) chunks).writeIdx
      = chunks.flatten.length := by
    simpa [ainoiceguard.mkRingBuffer] using aix
  obtain ⟨rlist, _, _⟩ :=
    read_spec (ainoiceguard.writeAll
        (ainoiceguard.mkRingBuffer requested initStore) chunks) k
      chunks.flatten.length (by rw [acap, hcap]) ar aix0
      (by rw [acap]; exact hN)
  rw [rlist]
  apply List.ext_getElem (by simp)
  intro n h1 h2
  simp only [List.getElem_map, List.getElem_range]
  rw [abuf n]
  have hmk : (ainoiceguard.mkRingBuffer requested initStore).writeIdx = 0 :=
    rfl
  rw [hmk, if_pos ⟨Nat.zero_le n, by simpa using h2⟩, Nat.sub_zero]
  exact List.getD_eq_getElem _ _ h2

/-- Witness for C5: capacity request 4 (rounds to 4), chunks
`[[1], [2, 3]]` of total length 3 = capacity − 1. -/
theorem C5_fifo_round_trip_witness :
    ((4 < 2 ^ 64) ∧
     ((([[1], [2, 3]] : List (List ℚ)).flatten.length
       ≤ (ainoiceguard.mkRingBuffer 4 (fun _ => 0)).capacity - 1))) ∧
    (ainoiceguard.writesAllFull (ainoiceguard.mkRingBuffer 4 (fun _ => 0))
        [[1], [2, 3]] ∧
     ((ainoiceguard.writeAll (ainoiceguard.mkRingBuffer 4 (fun _ => 0))
         [[1], [2, 3]]).read
        (([[1], [2, 3]] : List (List ℚ)).flatten.length)).2
       = ([[1], [2, 3]] : List (List ℚ)).flatten) :=
  ⟨⟨by norm_num, by decide⟩,
    C5_fifo_round_trip 4 (fun _ => 0) [[1], [2, 3]] (by norm_num) (by decide)⟩

/-- **C9.**  Concrete scenario: requested capacity 100 rounds to 128 (and
a request of 0 would round to 1); a single `write` of 130 samples into
the empty buffer returns 127 and stores the first 127 samples; a `read`
of up to 127 samples returns exactly those 127 samples in order; a
further `read` returns nothing. -/
theorem C9_concrete_scenario :
    ainoiceguard.nextPowerOf2 100 = 128 ∧
    ainoiceguard.nextPowerOf2 0 = 1 ∧
    (ainoiceguard.mkRingBuffer 100 (fun _ => 0)).capacity = 128 ∧
    ((ainoiceguard.mkRingBuffer 100 (fun _ => 0)).write
        (fun i => (i : ℚ)) 130).2 = 127 ∧
    (((ainoiceguard.mkRingBuffer 100 (fun _ => 0)).write
        (fun i => (i : ℚ)) 130).1.read 127).2
      = (List.range 127).map (fun i => (i : ℚ)) ∧
    ((((ainoiceguard.mkRingBuffer 100 (fun _ => 0)).write
        (fun i => (i : ℚ)) 130).1.read 127).1.read 127).2 = [] := by
  have h128 : ainoiceguard.nextPowerOf2 100 = 128 := by decide
  have hcap : (ainoiceguard.mkRingBuffer 100 (fun _ => (0:ℚ))).capacity
      = 2 ^ 7 := h128
  obtain ⟨w2, wcap, wr, wix, wbuf⟩ :=
    write_spec (ainoiceguard.mkRingBuffer 100 (fun _ => 0))
      (fun i => (i : ℚ)) 130 7 hcap rfl
  have hmk : (ainoiceguard.mkRingBuffer 100 (fun _ => (0:ℚ))).writeIdx = 0 :=
    rfl
  have hmin : min 130
      ((ainoiceguard.mkRingBuffer 100 (fun _ => (0:ℚ))).capacity
        - (ainoiceguard.mkRingBuffer 100 (fun _ => (0:ℚ))).writeIdx - 1)
      = 127 := by
    rw [hcap, hmk]
    norm_num
  rw [hmin] at w2 wix wbuf
  obtain ⟨rlist, rr, rw2⟩ :=
    read_spec ((ainoiceguard.mkRingBuffer 100 (fun _ => 0)).write
        (fun i => (i : ℚ)) 130).1 7 127 (by rw [wcap, hcap]) wr
      (by rw [wix, hmk]) (by rw [wcap, hcap]; norm_num)
  refine ⟨h128, by decide, h128, w2, ?_, ?_⟩
  · rw [rlist]
    apply List.map_congr_left
    intro a ha
    have haN : a < 127 := List.mem_range.mp ha
    rw [wbuf a, hmk, if_pos ⟨Nat.zero_le a, by omega⟩, Nat.sub_zero]
  · exact read_drained _ 127 (by rw [rw2, rr])
